import Mathlib

/-!
Verification of the `fcom` file-aggregation engine (src/src/combiner/mod.rs,
src/src/combiner/template.rs, src/src/main.rs) against its specification.

The Rust code is shallowly embedded: a directory tree is an inductive value,
filesystem reads are modelled by data stored at each file node (an optional
modification time standing for the `fs::metadata` result and an optional text
content standing for the `fs::read_to_string` result); all string operations
are implemented on `List Char` so that every definition evaluates inside the
kernel.  Paths are lists of components, mirroring Rust `PathBuf` values and
their component-wise ordering.
-/

set_option maxRecDepth 100000

namespace Fcom

/-! ### Character-list utilities (kernel-computable replacements for the
Rust `str` operations the combiner uses) -/

/-- If `pat` is a leading run of `s`, return the remainder of `s`; otherwise
`none`.  Used both for `str::replace` matching and for suffix tests. -/
def dropPre : List Char → List Char → Option (List Char)
  | [], s => some s
  | _ :: _, [] => none
  | p :: ps, c :: cs => if p = c then dropPre ps cs else none

/-- Whether `pat` occurs contiguously inside `s` (Rust `str::contains`). -/
def containsSub (pat : List Char) : List Char → Bool
  | [] => pat.isEmpty
  | c :: rest => (dropPre pat (c :: rest)).isSome || containsSub pat rest

/-- Rust `str::ends_with` on character lists. -/
def endsWithL (s suffix : List Char) : Bool :=
  (dropPre suffix.reverse s.reverse).isSome

/-- Lexicographic strict order on lists, lifted from a strict order on
elements.  Instantiated with `Char` it is the order Rust uses for `str`
(UTF-8 byte order equals code-point order), and with `String` it is the
component-wise order of `PathBuf`. -/
def lexLt (lt : α → α → Bool) : List α → List α → Bool
  | _, [] => false
  | [], _ :: _ => true
  | a :: as, b :: bs => if lt a b then true else if lt b a then false else lexLt lt as bs

/-- Strict order on strings, as Rust orders `str`/`OsString`. -/
def strLt (a b : String) : Bool := lexLt (fun c d => decide (c < d)) a.data b.data

/-- Strict order on paths (component lists), as Rust orders `PathBuf`. -/
def pathLtB (p q : List String) : Bool := lexLt strLt p q

/-- Non-strict path order: `p ≤ q` iff `¬ q < p`, as in any total order. -/
def pathLeB (p q : List String) : Bool := !(pathLtB q p)

/-- Propositional form of `pathLtB`. -/
def PathLt (p q : List String) : Prop := pathLtB p q = true

/-- Propositional form of `pathLeB`. -/
def PathLe (p q : List String) : Prop := pathLeB p q = true

instance : DecidableRel PathLt := fun _ _ => inferInstanceAs (Decidable (_ = true))

instance : DecidableRel PathLe := fun _ _ => inferInstanceAs (Decidable (_ = true))

/-! ### The modelled filesystem -/

/-- A broken-down local time, the input chrono formats. -/
structure DateTimeParts where
  year : Nat
  month : Nat
  day : Nat
  hour : Nat
  minute : Nat
  second : Nat
deriving DecidableEq

/-- A directory entry.  For a file, `modTime` is the time that
`fs::metadata(..).modified()` would return (`none` models a metadata error,
e.g. the file was removed), and `content` is the `fs::read_to_string` result
(`none` models a read error). -/
inductive FSEntry where
  | file (name : String) (modTime : Option DateTimeParts) (content : Option String)
  | dir (name : String) (entries : List FSEntry)

/-- The name of an entry, as `DirEntry::file_name` returns it. -/
def entryName : FSEntry → String
  | .file nm _ _ => nm
  | .dir nm _ => nm

/-- Whether an entry is a directory (`Path::is_dir`). -/
def entryIsDir : FSEntry → Bool
  | .file _ _ _ => false
  | .dir _ _ => true

mutual
/-- Number of files in one entry (counting recursively through directories).
The mutual pair also provides the structural induction principle used for
every lemma that walks the nested `FSEntry`/`List FSEntry` structure. -/
def fileCount : FSEntry → Nat
  | .file _ _ _ => 1
  | .dir _ es => fileCountForest es
def fileCountForest : List FSEntry → Nat
  | [] => 0
  | e :: rest => fileCount e + fileCountForest rest
end

mutual
/-- Well-formed forest: sibling names are pairwise distinct at every level,
as a real filesystem guarantees. -/
def wfEntry : FSEntry → Bool
  | .file _ _ _ => true
  | .dir _ es => wfForest es
def wfForest : List FSEntry → Bool
  | [] => true
  | e :: rest =>
      wfEntry e && !((rest.map entryName).contains (entryName e)) && wfForest rest
end

/-! ### Extension filtering

`get_all_files` (mod.rs:285-290) keeps a file when some filter string,
stripped of leading dots (`trim_start_matches(".")`), equals the file's
`Path::extension()`; `create_folder_tree_inner` (mod.rs:242-246) instead
keeps a file when its whole name `ends_with` the raw filter string. -/

/-- The characters after the last `'.'` of the list, if any. -/
def afterLastDot : List Char → Option (List Char)
  | [] => none
  | c :: cs =>
      match afterLastDot cs with
      | some r => some r
      | none => if c = '.' then some cs else none

/-- Rust `Path::extension()` applied to a plain file name: the portion after
the final dot, except that a name with no dot, or one that begins with a dot
and has no other dot, has no extension. -/
def fileExtension (nm : String) : Option String :=
  match nm.data with
  | [] => none
  | c :: cs =>
      if c = '.' then (afterLastDot cs).map String.mk
      else (afterLastDot (c :: cs)).map String.mk

/-- Rust `ext.trim_start_matches(".")` (mod.rs:289): drop every leading dot. -/
def stripLeadingDots (ext : String) : String :=
  String.mk (ext.data.dropWhile fun c => c == '.')

/-- The file filter of `get_all_files` (mod.rs:285-290): no filter accepts
everything; otherwise the extension must equal some filter string after
stripping its leading dots. -/
def fileMatchesExtFilter (fileExtensions : Option (List String)) (nm : String) : Bool :=
  match fileExtensions with
  | none => true
  | some exts => exts.any fun ext =>
      match fileExtension nm with
      | none => false
      | some e => e == stripLeadingDots ext

/-- The file filter of `create_folder_tree_inner` (mod.rs:242-246): the file
name must end with some raw filter string. -/
def nameEndsWithExt (fileExtensions : Option (List String)) (nm : String) : Bool :=
  match fileExtensions with
  | none => true
  | some exts => exts.any fun ext => endsWithL nm.data ext.data

/-! ### `get_all_files` (mod.rs:272-297) -/

/-- Model of `Vec::sort` on the collected paths (mod.rs:295): Rust's stable sort by
`PathBuf` order; on the duplicate-free lists produced here any sort agrees,
so insertion sort is used. -/
def sortPaths (l : List (List String)) : List (List String) :=
  List.insertionSort PathLe l

mutual
/-- One iteration of the `read_dir` loop in `get_all_files` (mod.rs:278-294):
a subdirectory is descended unless its name is in `ignoreFolders` (the whole
call's sorted result is appended); a file is kept if it passes the extension
filter.  Note the loop consults `ignoreFolders` only for directories. -/
def getAllFilesEntry (dirPath : List String) (fileExtensions : Option (List String))
    (ignoreFolders : List String) : FSEntry → List (List String)
  | .file nm _ _ =>
      if fileMatchesExtFilter fileExtensions nm then [dirPath ++ [nm]] else []
  | .dir nm es =>
      if ignoreFolders.contains nm then []
      else sortPaths (getAllFilesList (dirPath ++ [nm]) fileExtensions ignoreFolders es)
def getAllFilesList (dirPath : List String) (fileExtensions : Option (List String))
    (ignoreFolders : List String) : List FSEntry → List (List String)
  | [] => []
  | e :: rest =>
      getAllFilesEntry dirPath fileExtensions ignoreFolders e ++
        getAllFilesList dirPath fileExtensions ignoreFolders rest
end

/-- Model of `get_all_files` (mod.rs:272-297) on a directory whose path is `dirPath`
and whose `read_dir` listing is `es` (in filesystem enumeration order): the
loop's accumulated results, sorted at the end (mod.rs:295). -/
def getAllFiles (dirPath : List String) (fileExtensions : Option (List String))
    (ignoreFolders : List String) (es : List FSEntry) : List (List String) :=
  sortPaths (getAllFilesList dirPath fileExtensions ignoreFolders es)

mutual
/-- Size of an entry: an executable structural measure bounding the
recursion depth of the tree renderer. -/
def entrySize : FSEntry → Nat
  | .file _ _ _ => 1
  | .dir _ es => 1 + forestSize es
def forestSize : List FSEntry → Nat
  | [] => 1
  | e :: rest => 1 + entrySize e + forestSize rest
end

mutual
/-- Removing every directory entry whose name is ignored, recursively: the
subtrees the walkers prune.  Files are left in place. -/
def pruneEntry (ignoreFolders : List String) : FSEntry → FSEntry
  | .file nm mt ct => .file nm mt ct
  | .dir nm es => .dir nm (pruneForest ignoreFolders es)
def pruneForest (ignoreFolders : List String) : List FSEntry → List FSEntry
  | [] => []
  | e :: rest =>
      if entryIsDir e && ignoreFolders.contains (entryName e) then
        pruneForest ignoreFolders rest
      else pruneEntry ignoreFolders e :: pruneForest ignoreFolders rest
end

/-! ### `create_folder_tree` (mod.rs:201-258) -/

/-- The sort key comparison of mod.rs:221: entries are ordered by the pair
`(!is_dir, file_name)` lexicographically, i.e. directories first, then by
name. -/
def entryKeyLt (a b : FSEntry) : Bool :=
  if (!entryIsDir a) == (!entryIsDir b) then strLt (entryName a) (entryName b)
  else (!entryIsDir a) == false

/-- Propositional non-strict entry order for `sort_by_key`. -/
def EntryKeyLe (a b : FSEntry) : Prop := (!(entryKeyLt b a)) = true

instance : DecidableRel EntryKeyLe := fun _ _ => inferInstanceAs (Decidable (_ = true))

/-- The `contents` list of `create_folder_tree_inner` (mod.rs:216-221):
entries whose name is ignored are filtered out (files and directories alike),
then the rest are sorted directories-first, by name. -/
def sortedContents (ignoreFolders : List String) (es : List FSEntry) : List FSEntry :=
  List.insertionSort EntryKeyLe
    (es.filter fun e => !(ignoreFolders.contains (entryName e)))

/-- The box-drawing connector picked at mod.rs:232/251. -/
def connector (isLast : Bool) : String := if isLast then "└──" else "├──"

/-- Model of `create_folder_tree_inner` (mod.rs:209-258).  The extra `fuel` argument
only drives the recursion (the function is extensionally fuel-independent
once `fuel` bounds the tree size, see `createFolderTreeFuel_congr`); the
wrapper `createFolderTree` supplies a sufficient bound.  Each directory entry
prints `pfx ++ connector ++ " " ++ name ++ "/"` and recurses with the
extended prefix; each file entry prints its line only if it passes the
`ends_with` extension filter — but it still occupies a slot for the
last-entry test, exactly as in the source. -/
def createFolderTreeFuel : Nat → Option (List String) → List String → String →
    List FSEntry → String
  | 0, _, _, _, _ => ""
  | fuel + 1, fileExtensions, ignoreFolders, pfx, es =>
      let contents := sortedContents ignoreFolders es
      String.join <| contents.enum.map fun ie =>
        match ie.2 with
        | .file nm _ _ =>
            if nameEndsWithExt fileExtensions nm then
              pfx ++ connector (ie.1 == contents.length - 1) ++ " " ++ nm ++ "\n"
            else ""
        | .dir nm es' =>
            pfx ++ connector (ie.1 == contents.length - 1) ++ " " ++ nm ++ "/\n" ++
              createFolderTreeFuel fuel fileExtensions ignoreFolders
                (pfx ++ (if ie.1 == contents.length - 1 then " " else "│") ++ "   ") es'

/-- Model of `create_folder_tree` (mod.rs:201-207): the inner renderer started with an
empty prefix.  `forestSize es` strictly bounds the recursion depth, so the
fuel never runs out. -/
def createFolderTree (fileExtensions : Option (List String))
    (ignoreFolders : List String) (es : List FSEntry) : String :=
  createFolderTreeFuel (forestSize es) fileExtensions ignoreFolders "" es

/-! ### The template engine (template.rs) -/

/-- The scanning loop of Rust `str::replace`: at each position, if the
(nonempty) pattern matches, emit the replacement and skip past the match
without rescanning the emitted text; otherwise emit one character.  The fuel
starts at the length of the scanned text and bounds it throughout, so the
fuel-exhausted branch is never taken by `rustReplace`. -/
def replaceGo : Nat → List Char → List Char → List Char → List Char
  | _, [], _, _ => []
  | 0, s, _, _ => s
  | fuel + 1, c :: rest, pat, rep =>
      match dropPre pat (c :: rest) with
      | some remaining => rep ++ replaceGo fuel remaining pat rep
      | none => c :: replaceGo fuel rest pat rep

/-- Rust `str::replace`: replace every non-overlapping occurrence of `pat`,
scanning left to right.  An empty pattern matches before every character and
at the end, as in Rust. -/
def rustReplace (s pat rep : String) : String :=
  if pat.data.isEmpty then
    String.mk (rep.data ++ (s.data.map fun c => c :: rep.data).flatten)
  else String.mk (replaceGo s.data.length s.data pat.data rep.data)

/-- Model of `CombinerTemplate::generate_output_file_content` (template.rs:24-30):
for each field `(key, value)` in order, replace every occurrence of
the brace-wrapped key token in the accumulated output by `value`.  The Rust code
iterates a `HashMap`, whose order is unspecified; the field order is
therefore an explicit argument here, and the call sites below use the
insertion order of the source's field arrays. -/
def generateOutputFileContent (template : String) (fields : List (String × String)) : String :=
  fields.foldl (fun out kv => rustReplace out ("\x7b" ++ kv.1 ++ "\x7d") kv.2) template

/-! ### chrono formatting (mod.rs:132-134 and mod.rs:180-184) -/

/-- Decimal rendering of `n`, left-padded with zeros to width `w` (chrono's
numeric specifiers pad but never truncate). -/
def natPad (w n : Nat) : String :=
  String.mk (List.replicate (w - (toString n).length) '0' ++ (toString n).data)

/-- One chrono `%` specifier.  Only the specifiers appearing in the source's
format strings are interpreted; `%Y` pads the year to four digits, the others
to two. -/
def chronoSpec (c : Char) (dt : DateTimeParts) : List Char :=
  if c = 'Y' then (natPad 4 dt.year).data
  else if c = 'm' then (natPad 2 dt.month).data
  else if c = 'd' then (natPad 2 dt.day).data
  else if c = 'H' then (natPad 2 dt.hour).data
  else if c = 'M' then (natPad 2 dt.minute).data
  else if c = 'S' then (natPad 2 dt.second).data
  else ['%', c]

/-- chrono `DateTime::format(..).to_string()`: literal characters pass
through, `%` followed by a specifier letter expands per `chronoSpec`. -/
def formatChronoL : List Char → DateTimeParts → List Char
  | [], _ => []
  | '%' :: c :: rest, dt => chronoSpec c dt ++ formatChronoL rest dt
  | c :: rest, dt => c :: formatChronoL rest dt

/-- String-level chrono formatting. -/
def formatChrono (fmt : String) (dt : DateTimeParts) : String :=
  String.mk (formatChronoL fmt.data dt)

/-- The format string for each file's modification time (mod.rs:133). -/
def MODIFIED_TIME_FORMAT : String := "%Y-%m-%d %H:%M:%S"

/-- The format string for the document generation date (mod.rs:183) — note
the missing `%` before `d`. -/
def DATE_GENERATED_FORMAT : String := "%Y-%m-d %H:%M:%S"

/-! ### Rust line handling -/

/-- Split on `'\n'`, keeping a (possibly empty) final segment. -/
def splitOnNl : List Char → List (List Char)
  | [] => [[]]
  | c :: rest =>
      match splitOnNl rest with
      | [] => []
      | g :: gs => if c = '\n' then [] :: g :: gs else (c :: g) :: gs

/-- Rust `str::lines()`: split at `'\n'`, drop a final empty segment (a
trailing line ending produces no extra line), and strip one trailing `'\r'`
from each line. -/
def rustLines (s : String) : List String :=
  let parts := splitOnNl s.data
  let parts := if parts.getLast? == some [] then parts.dropLast else parts
  parts.map fun g => String.mk (if g.getLast? == some '\r' then g.dropLast else g)

/-- Rust `str::trim` (the source's contents are ASCII; the Unicode-only
whitespace code points are not modelled). -/
def rustTrim (s : String) : String :=
  String.mk (((s.data.dropWhile Char.isWhitespace).reverse.dropWhile Char.isWhitespace).reverse)

/-- Rust `Vec::join(sep)`. -/
def joinWith (sep : String) : List String → String
  | [] => ""
  | [s] => s
  | s :: rest => s ++ sep ++ joinWith sep rest

/-- Rust `Path::display()` on a relative path: components joined by `/`. -/
def joinPath (p : List String) : String := joinWith "/" p

/-! ### The built-in templates (mod.rs:8-59) -/

/-- mod.rs:8-18. -/
def XML_OUTPUT_TEMPLATE : String :=
  "<file_overview>\nTotal files: \x7bTOTAL_FILES\x7d\nDate generated: \x7bDATE_GENERATED\x7d\nFolder Structure:\n\x7bFOLDER_TREE\x7d\n\nFiles included:\n\x7bFILES_INCLUDED\x7d\n</file_overview>\n\n\x7bFILE_CONTENTS\x7d"

/-- mod.rs:20-24. -/
def XML_FILE_TEMPLATE : String :=
  "<file path=\"\x7bFILE_PATH\x7d\" lines=\"\x7bLINES_COUNT\x7d\" modified=\"\x7bMODIFIED_TIME\x7d\">\n\x7bFILE_CONTENT\x7d\n</file>\n\n"

/-- mod.rs:26-45. -/
def MARKDOWN_OUTPUT_TEMPLATE : String :=
  "# File Overview\n\n- **Total files:** \x7bTOTAL_FILES\x7d\n- **Date generated:** \x7bDATE_GENERATED\x7d\n\n## Folder Structure\n\n```\n\x7bFOLDER_TREE\x7d\n```\n\n## Files Included\n\n\x7bFILES_INCLUDED\x7d\n\n\n## Files Contents\n\n---\n\x7bFILE_CONTENTS\x7d"

/-- mod.rs:47-59. -/
def MARKDOWN_FILE_TEMPLATE : String :=
  "### \x7bFILE_NAME\x7d\n\n- **Path:** `\x7bFILE_PATH\x7d`\n- **Lines:** \x7bLINES_COUNT\x7d\n- **Modified:** \x7bMODIFIED_TIME\x7d\n\n```\n\x7bFILE_CONTENT\x7d\n```\n\n---\n\n"

/-! ### Output-mode resolution (mod.rs:87-109) -/

/-- The two fatal template-resolution failures: the catch-all
`panic!("Invalid mode: ...")` and the custom-mode
`panic!("Custom mode requires both ...")`. -/
inductive ModeError where
  | invalidMode (mode : String)
  | customTemplatesMissing
deriving DecidableEq

/-- Rust `str::to_lowercase` on the ASCII range (the only range exercised by mode
names). -/
def strToLower (s : String) : String := String.mk (s.data.map Char.toLower)

/-- The `match options.mode.to_lowercase().as_str()` of mod.rs:87-109.
Custom templates are modelled by their contents (`CombinerTemplate::from_file`
reads the file verbatim). -/
def resolveTemplates (mode : String) (customOutputTemplate customFileTemplate : Option String) :
    Except ModeError (String × String) :=
  if strToLower mode = "xml" then .ok (XML_OUTPUT_TEMPLATE, XML_FILE_TEMPLATE)
  else if strToLower mode = "markdown" then .ok (MARKDOWN_OUTPUT_TEMPLATE, MARKDOWN_FILE_TEMPLATE)
  else if strToLower mode = "custom" then
    match customOutputTemplate, customFileTemplate with
    | some o, some f => .ok (o, f)
    | _, _ => .error .customTemplatesMissing
  else .error (.invalidMode mode)

/-! ### The per-file loop and `process_folder` (mod.rs:72-199) -/

/-- Resolution of a path (list of components) against a directory listing:
what the filesystem calls inside the combine loop observe. -/
def resolvePath : List String → List FSEntry → Option FSEntry
  | [], _ => none
  | [nm], es => es.find? fun e => entryName e == nm
  | nm :: rest, es =>
      match es.find? fun e => entryName e == nm with
      | some (.dir _ es') => resolvePath rest es'
      | _ => none

/-- The line-numbering format of mod.rs:143 joined over the enumerated lines
(mod.rs:140-145): each line prefixed by its 1-based index left-justified in a
six-character field, then `"| "`. -/
def numberLines (content : String) : String :=
  joinWith "\n" ((rustLines content).enum.map fun il =>
    let s := toString (il.1 + 1)
    s ++ String.mk (List.replicate (6 - s.length) ' ') ++ "| " ++ il.2)

/-- The body of the `for file_path in &all_files` loop (mod.rs:127-176),
returning the collected warnings (the paths whose read failed) and the
rendered per-file blocks.  `fs::metadata(file_path).unwrap()` (mod.rs:130)
panics — modelled as `Except.error` — when the path no longer resolves to a
file with retrievable metadata; only a failure of `fs::read_to_string`
afterwards is caught and turned into a warning. -/
def combineLoop (fileTemplate : String) (addLineNumbers : Bool) (root : List String)
    (fsEntries : List FSEntry) : List (List String) →
    Except String (List (List String) × List String)
  | [] => .ok ([], [])
  | p :: rest =>
      match resolvePath (p.drop root.length) fsEntries with
      | some (.file nm (some t) ct) =>
          let modTime := formatChrono MODIFIED_TIME_FORMAT t
          match ct with
          | none =>
              -- read_to_string failed: warn and continue (mod.rs:167-174)
              match combineLoop fileTemplate addLineNumbers root fsEntries rest with
              | .error e => .error e
              | .ok (warnings, blocks) => .ok (p :: warnings, blocks)
          | some content =>
              let lineCount := (rustLines content).length
              let formatted := if addLineNumbers then numberLines content else content
              let block := generateOutputFileContent fileTemplate
                [("FILE_PATH", joinPath (p.drop root.length)),
                 ("FILE_NAME", nm),
                 ("LINES_COUNT", toString lineCount),
                 ("MODIFIED_TIME", modTime),
                 ("FILE_CONTENT", rustTrim formatted)]
              match combineLoop fileTemplate addLineNumbers root fsEntries rest with
              | .error e => .error e
              | .ok (warnings, blocks) => .ok (warnings, block :: blocks)
      | _ => .error ("metadata unwrap panicked for " ++ joinPath p)

/-- The caller-supplied configuration of `process_folder`
(`FolderProcessOptions`, mod.rs:61-70, minus the two filesystem paths that
are external I/O concerns). -/
structure ProcessOptions where
  fileExtensions : Option (List String)
  ignorePatterns : List String
  addLineNumbers : Bool
  mode : String
  customOutputTemplate : Option String
  customFileTemplate : Option String

/-- The field array of mod.rs:179-188 handed to the outer template:
`TOTAL_FILES` is the length of the *discovered* file list `all_files`,
whatever happened during the read loop, and `DATE_GENERATED` is formatted
with the (typo-carrying) `DATE_GENERATED_FORMAT`. -/
def outerFields (allFiles : List (List String)) (now : DateTimeParts)
    (folderTree filesIncluded : String) (blocks : List String) : List (String × String) :=
  [("TOTAL_FILES", toString allFiles.length),
   ("DATE_GENERATED", formatChrono DATE_GENERATED_FORMAT now),
   ("FOLDER_TREE", rustTrim folderTree),
   ("FILES_INCLUDED", filesIncluded),
   ("FILE_CONTENTS", String.join blocks)]

/-- Model of `process_folder` (mod.rs:72-199) on a root directory whose listing is
`es`, at local time `now`: discover files, resolve the template pair, render
the folder tree and the bullet list, run the per-file loop, and render the
outer template.  The result is the final document together with the warned
paths; `Except.error` models the panicking paths. -/
def processFolder (opts : ProcessOptions) (now : DateTimeParts) (es : List FSEntry) :
    Except String (String × List (List String)) :=
  let allFiles := getAllFiles [] opts.fileExtensions opts.ignorePatterns es
  match resolveTemplates opts.mode opts.customOutputTemplate opts.customFileTemplate with
  | .error (.invalidMode m) => .error ("Invalid mode: " ++ m)
  | .error .customTemplatesMissing =>
      .error "Custom mode requires both custom output and file templates."
  | .ok (outputTemplate, fileTemplate) =>
      let folderTree := createFolderTree opts.fileExtensions opts.ignorePatterns es
      let filesIncluded := joinWith "\n" (allFiles.map fun f => "- " ++ joinPath f)
      match combineLoop fileTemplate opts.addLineNumbers [] es allFiles with
      | .error e => .error e
      | .ok (warnings, blocks) =>
          .ok (generateOutputFileContent outputTemplate
                 (outerFields allFiles now folderTree filesIncluded blocks), warnings)

/-! ### Shared concrete examples -/

/-- Local time used in the concrete runs below. -/
def sampleNow : DateTimeParts := ⟨2024, 5, 17, 12, 34, 56⟩

/-- The options of a plain `xml`-mode run: no extension filter, no ignore
set, no line numbers. -/
def xmlOpts : ProcessOptions := ⟨none, [], false, "xml", none, none⟩

/-- Three discovered files of which the middle one, `b.txt`, has readable
metadata but unreadable content. -/
def threeFilesBadB : List FSEntry :=
  [.file "a.txt" (some ⟨2024, 5, 17, 12, 0, 0⟩) (some "alpha\nbeta"),
   .file "b.txt" (some ⟨2024, 5, 17, 12, 0, 0⟩) none,
   .file "c.txt" (some ⟨2024, 5, 17, 12, 0, 0⟩) (some "gamma")]

/-- Same tree with `a.txt` unreadable instead. -/
def threeFilesBadA : List FSEntry :=
  [.file "a.txt" (some ⟨2024, 5, 17, 12, 0, 0⟩) none,
   .file "b.txt" (some ⟨2024, 5, 17, 12, 0, 0⟩) (some "alpha\nbeta"),
   .file "c.txt" (some ⟨2024, 5, 17, 12, 0, 0⟩) (some "gamma")]

/-- Same tree with `c.txt` unreadable instead. -/
def threeFilesBadC : List FSEntry :=
  [.file "a.txt" (some ⟨2024, 5, 17, 12, 0, 0⟩) (some "alpha\nbeta"),
   .file "b.txt" (some ⟨2024, 5, 17, 12, 0, 0⟩) (some "gamma"),
   .file "c.txt" (some ⟨2024, 5, 17, 12, 0, 0⟩) none]

/-- The document the xml run on `threeFilesBadB` writes. -/
def threeFilesBadBDoc : String :=
  "<file_overview>\nTotal files: 3\nDate generated: 2024-05-d 12:34:56\nFolder Structure:\n├── a.txt\n├── b.txt\n└── c.txt\n\nFiles included:\n- a.txt\n- b.txt\n- c.txt\n</file_overview>\n\n<file path=\"a.txt\" lines=\"2\" modified=\"2024-05-17 12:00:00\">\nalpha\nbeta\n</file>\n\n<file path=\"c.txt\" lines=\"1\" modified=\"2024-05-17 12:00:00\">\ngamma\n</file>\n\n"

/-- A root containing the single file `foo.xrs`. -/
def xrsTree : List FSEntry := [.file "foo.xrs" none none]

/-! ### C1 — the total-file-count field -/

/-- C1, counterexample.  The claim says a run with one unreadable file among
three discovered reports total files = 2; the code substitutes
`all_files.len()` (mod.rs:180), so the document of exactly that run says
`Total files: 3` and nowhere `Total files: 2` (the unreadable file is still
warned about and excluded from the contents section). -/
theorem claim1_counterexample :
    processFolder xmlOpts sampleNow threeFilesBadB =
      .ok (threeFilesBadBDoc, [["b.txt"]]) ∧
    containsSub "Total files: 3".data threeFilesBadBDoc.data = true ∧
    containsSub "Total files: 2".data threeFilesBadBDoc.data = false :=
  ⟨rfl, by decide, by decide⟩

/-- C1, amended: the total-file-count field substituted into the outer
template equals the number of *discovered* files (`all_files.len()`),
irrespective of read failures; in every run in which one of three discovered
files is unreadable (but its metadata is retrievable), the output reports
total files = 3, a warning is surfaced for exactly the unreadable file, and
the run completes successfully. -/
theorem claim1_amended :
    (∀ allFiles now tree fi blocks,
      List.lookup "TOTAL_FILES" (outerFields allFiles now tree fi blocks) =
        some (toString allFiles.length)) ∧
    (∃ doc, processFolder xmlOpts sampleNow threeFilesBadA = .ok (doc, [["a.txt"]]) ∧
      containsSub "Total files: 3".data doc.data = true) ∧
    (∃ doc, processFolder xmlOpts sampleNow threeFilesBadB = .ok (doc, [["b.txt"]]) ∧
      containsSub "Total files: 3".data doc.data = true) ∧
    (∃ doc, processFolder xmlOpts sampleNow threeFilesBadC = .ok (doc, [["c.txt"]]) ∧
      containsSub "Total files: 3".data doc.data = true) :=
  ⟨fun _ _ _ _ _ => rfl, ⟨_, rfl, by decide⟩, ⟨_, rfl, by decide⟩, ⟨_, rfl, by decide⟩⟩

/-! ### C5 — the generation-timestamp format -/

/-- C5: the claim says the generated date is formatted `YYYY-MM-DD HH:MM:SS`;
the format string at mod.rs:183 is `"%Y-%m-d %H:%M:%S"` — the `%` before `d`
is missing, so the day of month is rendered as the literal letter `d`.  The
adjacent per-file timestamp (mod.rs:133) uses the correct format, showing the
intent; this is a slip in the code, not in the spec.  At local time
2024-05-17 12:34:56 the generated-date field reads `2024-05-d 12:34:56`, and
the final document carries that text verbatim. -/
theorem claim5_generated_date_format_bug :
    formatChrono DATE_GENERATED_FORMAT sampleNow = "2024-05-d 12:34:56" ∧
    formatChrono MODIFIED_TIME_FORMAT sampleNow = "2024-05-17 12:34:56" ∧
    ("2024-05-d 12:34:56" : String) ≠ "2024-05-17 12:34:56" ∧
    (∃ doc w, processFolder xmlOpts sampleNow threeFilesBadB = .ok (doc, w) ∧
      containsSub "Date generated: 2024-05-d 12:34:56".data doc.data = true) :=
  ⟨rfl, rfl, by decide, ⟨_, _, rfl, by decide⟩⟩

/-! ### C4 / C9 — template substitution -/

/-- C4, counterexample.  The claim says `{NAME}`-shaped text inside an
inserted value is never replaced by a later substitution step, in any
processing order.  But `generate_output_file_content` replaces sequentially
on the accumulated output (template.rs:26-29), so with the order
`A` then `B`, the `{B}` inserted as `A`'s value *is* replaced by the later
`B` step: the result is the string y, not the literal text of the B placeholder. -/
theorem claim4_counterexample :
    generateOutputFileContent "\x7bA\x7d" [("A", "\x7bB\x7d"), ("B", "y")] = "y" ∧
    ("y" : String) ≠ "\x7bB\x7d" :=
  ⟨rfl, by decide⟩

/-- C4, amended: substitution is sequential in field order.  Within a single
field's replace step the inserted value is not rescanned (replacing `{A}` by
`{A}x` terminates with `{A}x`), and a value inserted by an *earlier* step is
left alone by steps whose keys do not occur in it — but `{NAME}`-shaped text
in an inserted value *is* replaced by a later step for the field `NAME`, so
the outcome depends on the processing order. -/
theorem claim4_amended :
    rustReplace "\x7bA\x7d" "\x7bA\x7d" "\x7bA\x7dx" = "\x7bA\x7dx" ∧
    generateOutputFileContent "\x7bA\x7d" [("B", "y"), ("A", "\x7bB\x7d")] = "\x7bB\x7d" ∧
    generateOutputFileContent "\x7bA\x7d" [("A", "\x7bB\x7d"), ("B", "y")] = "y" :=
  ⟨rfl, rfl, rfl⟩

/-- C9: rendering `{A}{B}` with `A="x", B="y"` yields `"xy"` in either
substitution order, and an unknown placeholder `{C}` in the same template is
left literally in place, again in either order. -/
theorem claim9_disjoint_fields_order_independent :
    generateOutputFileContent "\x7bA\x7d\x7bB\x7d" [("A", "x"), ("B", "y")] = "xy" ∧
    generateOutputFileContent "\x7bA\x7d\x7bB\x7d" [("B", "y"), ("A", "x")] = "xy" ∧
    generateOutputFileContent "\x7bA\x7d\x7bB\x7d\x7bC\x7d" [("A", "x"), ("B", "y")] =
      "xy\x7bC\x7d" ∧
    generateOutputFileContent "\x7bA\x7d\x7bB\x7d\x7bC\x7d" [("B", "y"), ("A", "x")] =
      "xy\x7bC\x7d" :=
  ⟨rfl, rfl, rfl, rfl⟩

/-! ### C2 — tree filter vs. collect filter, counterexample -/

/-- C2, counterexample.  On a root holding only `foo.xrs` with filter
`["rs"]`, the tree diagram shows the file (`create_folder_tree_inner` tests
`file_name.ends_with("rs")`, mod.rs:246) while `collect_files` omits it
(`Path::extension()` is `"xrs" ≠ "rs"`, mod.rs:287-289) — so tree and list
membership differ; and with filter `[".rs"]` the diagram is empty, so `"rs"`
and `".rs"` are not equivalent for the tree either.  The two lists agree only
in `collect_files`, which returns `[]` for both spellings. -/
theorem claim2_counterexample :
    createFolderTree (some ["rs"]) [] xrsTree = "└── foo.xrs\n" ∧
    getAllFiles [] (some ["rs"]) [] xrsTree = [] ∧
    createFolderTree (some [".rs"]) [] xrsTree = "" ∧
    getAllFiles [] (some [".rs"]) [] xrsTree = [] :=
  ⟨rfl, rfl, rfl, rfl⟩

/-! ### C3 — ignore matching in `get_all_files`, counterexample -/

/-- C3, counterexample.  The claim says a file whose name matches an ignore
token is skipped by the collect traversal; but `get_all_files` consults
`ignore_folders` only on the `path.is_dir()` branch (mod.rs:281-284), so the
file `secret` is returned even though `"secret"` is in the ignore set.  The
tree renderer, by contrast, does filter it out (mod.rs:219). -/
theorem claim3_counterexample :
    getAllFiles [] none ["secret"] [.file "secret" none none] = [["secret"]] ∧
    (["secret"] : List String) ∈ getAllFiles [] none ["secret"] [.file "secret" none none] ∧
    ("secret" : String) ∈ ["secret"] ∧
    createFolderTree none ["secret"] [.file "secret" none none] = "" :=
  ⟨rfl, by decide, by decide, rfl⟩

/-! ### C10 — case-insensitive mode matching -/

/-- C10: `process_folder` lowercases the mode before matching
(mod.rs:87), so every string lowercasing to `"xml"` (resp. `"markdown"`)
selects the corresponding built-in template pair exactly as the lowercase
spelling does, and the `Invalid mode` rejection happens precisely for the
strings whose lowercase form is none of `xml`, `markdown`, `custom`. -/
theorem claim10_mode_case_insensitive (mode : String) (co cf : Option String) :
    (strToLower mode = "xml" →
      resolveTemplates mode co cf = .ok (XML_OUTPUT_TEMPLATE, XML_FILE_TEMPLATE)) ∧
    (strToLower mode = "markdown" →
      resolveTemplates mode co cf = .ok (MARKDOWN_OUTPUT_TEMPLATE, MARKDOWN_FILE_TEMPLATE)) ∧
    (resolveTemplates mode co cf = .error (.invalidMode mode) ↔
      strToLower mode ≠ "xml" ∧ strToLower mode ≠ "markdown" ∧ strToLower mode ≠ "custom") := by
  unfold resolveTemplates
  by_cases h1 : strToLower mode = "xml"
  · rw [if_pos h1]
    refine ⟨fun _ => rfl, fun h2 => absurd (h1.symm.trans h2) (by decide), ?_⟩
    constructor
    · intro h; exact absurd h (by simp)
    · rintro ⟨hx, -, -⟩; exact absurd h1 hx
  · rw [if_neg h1]
    by_cases h2 : strToLower mode = "markdown"
    · rw [if_pos h2]
      refine ⟨fun hx => absurd hx h1, fun _ => rfl, ?_⟩
      constructor
      · intro h; exact absurd h (by simp)
      · rintro ⟨-, hm, -⟩; exact absurd h2 hm
    · rw [if_neg h2]
      by_cases h3 : strToLower mode = "custom"
      · rw [if_pos h3]
        refine ⟨fun hx => absurd hx h1, fun hx => absurd hx h2, ?_⟩
        constructor
        · intro h
          cases co <;> cases cf <;> simp_all
        · rintro ⟨-, -, hc⟩; exact absurd h3 hc
      · rw [if_neg h3]
        exact ⟨fun hx => absurd hx h1, fun hx => absurd hx h2,
          ⟨fun _ => ⟨h1, h2, h3⟩, fun _ => rfl⟩⟩

/-- C10, witness: `"XML"` and `"Markdown"` select the same built-in pairs as
their lowercase spellings, and `"Bogus"` is rejected as an invalid mode. -/
theorem claim10_witness :
    resolveTemplates "XML" none none = .ok (XML_OUTPUT_TEMPLATE, XML_FILE_TEMPLATE) ∧
    resolveTemplates "Markdown" none none =
      .ok (MARKDOWN_OUTPUT_TEMPLATE, MARKDOWN_FILE_TEMPLATE) ∧
    resolveTemplates "Bogus" (some "o") (some "f") = .error (.invalidMode "Bogus") :=
  ⟨(claim10_mode_case_insensitive "XML" none none).1 (by decide),
   (claim10_mode_case_insensitive "Markdown" none none).2.1 (by decide),
   (claim10_mode_case_insensitive "Bogus" (some "o") (some "f")).2.2.mpr (by decide)⟩

/-! ### Order theory for the path sort -/

section LexOrder

variable {α : Type} (lt : α → α → Bool)

theorem lexLt_asymm (hasymm : ∀ a b, lt a b = true → lt b a = false) :
    ∀ x y, lexLt lt x y = true → lexLt lt y x = false := by
  intro x
  induction x with
  | nil =>
      intro y h
      cases y with
      | nil => simp [lexLt] at h
      | cons b bs => simp [lexLt]
  | cons a as ih =>
      intro y h
      cases y with
      | nil => simp [lexLt] at h
      | cons b bs =>
          simp only [lexLt] at h ⊢
          cases hab : lt a b with
          | true => simp [hasymm a b hab, hab]
          | false =>
              cases hba : lt b a with
              | true => simp [hab, hba] at h
              | false =>
                  simp only [hab, hba] at h ⊢
                  simp at h ⊢
                  exact ih bs h

theorem lexLt_trans (htrans : ∀ a b c, lt a b = true → lt b c = true → lt a c = true)
    (hconn : ∀ a b, lt a b = false → lt b a = false → a = b) :
    ∀ x y z, lexLt lt x y = true → lexLt lt y z = true → lexLt lt x z = true := by
  intro x
  induction x with
  | nil =>
      intro y z hxy hyz
      cases z with
      | nil =>
          cases y with
          | nil => simp [lexLt] at hxy
          | cons b bs => simp [lexLt] at hyz
      | cons c cs => simp [lexLt]
  | cons a as ih =>
      intro y z hxy hyz
      cases y with
      | nil => simp [lexLt] at hxy
      | cons b bs =>
          cases z with
          | nil => simp [lexLt] at hyz
          | cons c cs =>
              simp only [lexLt] at hxy hyz ⊢
              cases hab : lt a b with
              | true =>
                  cases hbc : lt b c with
                  | true => simp [htrans a b c hab hbc]
                  | false =>
                      cases hcb : lt c b with
                      | true => simp [hbc, hcb] at hyz
                      | false =>
                          have : b = c := hconn b c hbc hcb
                          subst this
                          simp [hab]
              | false =>
                  cases hba : lt b a with
                  | true => simp [hab, hba] at hxy
                  | false =>
                      have heq : a = b := hconn a b hab hba
                      subst heq
                      simp only [hab, hba] at hxy
                      simp at hxy
                      cases hac : lt a c with
                      | true => simp
                      | false =>
                          cases hca : lt c a with
                          | true => simp [hac, hca] at hyz
                          | false =>
                              simp only [hac, hca] at hyz ⊢
                              simp at hyz ⊢
                              exact ih bs cs hxy hyz

theorem lexLt_conn (hconn : ∀ a b, lt a b = false → lt b a = false → a = b) :
    ∀ x y, lexLt lt x y = false → lexLt lt y x = false → x = y := by
  intro x
  induction x with
  | nil =>
      intro y hxy _
      cases y with
      | nil => rfl
      | cons b bs => simp [lexLt] at hxy
  | cons a as ih =>
      intro y hxy hyx
      cases y with
      | nil => simp [lexLt] at hyx
      | cons b bs =>
          simp only [lexLt] at hxy hyx
          cases hab : lt a b with
          | true => simp [hab] at hxy
          | false =>
              cases hba : lt b a with
              | true => simp [hab, hba] at hyx
              | false =>
                  simp only [hab, hba] at hxy hyx
                  simp at hxy hyx
                  rw [hconn a b hab hba, ih bs hxy hyx]

end LexOrder

theorem charLt_asymm : ∀ a b : Char, decide (a < b) = true → decide (b < a) = false := by
  intro a b
  simp only [decide_eq_true_eq, decide_eq_false_iff_not]
  exact fun h => lt_asymm h

theorem charLt_trans : ∀ a b c : Char, decide (a < b) = true → decide (b < c) = true →
    decide (a < c) = true := by
  intro a b c
  simp only [decide_eq_true_eq]
  exact lt_trans

theorem charLt_conn : ∀ a b : Char, decide (a < b) = false → decide (b < a) = false →
    a = b := by
  intro a b
  simp only [decide_eq_false_iff_not]
  exact fun h1 h2 => le_antisymm (not_lt.mp h2) (not_lt.mp h1)

theorem strLt_asymm : ∀ a b : String, strLt a b = true → strLt b a = false :=
  fun a b => lexLt_asymm _ charLt_asymm a.data b.data

theorem strLt_trans : ∀ a b c : String, strLt a b = true → strLt b c = true →
    strLt a c = true :=
  fun a b c => lexLt_trans _ charLt_trans charLt_conn a.data b.data c.data

theorem strLt_conn : ∀ a b : String, strLt a b = false → strLt b a = false → a = b := by
  intro a b h1 h2
  have h := lexLt_conn _ charLt_conn a.data b.data h1 h2
  exact congrArg String.mk h

theorem pathLt_asymm : ∀ p q : List String, pathLtB p q = true → pathLtB q p = false :=
  fun p q => lexLt_asymm _ strLt_asymm p q

theorem pathLt_trans : ∀ p q r : List String, pathLtB p q = true → pathLtB q r = true →
    pathLtB p r = true :=
  fun p q r => lexLt_trans _ strLt_trans strLt_conn p q r

theorem pathLt_conn : ∀ p q : List String, pathLtB p q = false → pathLtB q p = false →
    p = q :=
  fun p q => lexLt_conn _ strLt_conn p q

instance : IsTotal (List String) PathLe := by
  constructor
  intro p q
  unfold PathLe pathLeB
  by_cases h : pathLtB q p = true
  · right
    have := pathLt_asymm q p h
    simp [this]
  · left
    simp [Bool.not_eq_true] at h
    simp [h]

instance : IsTrans (List String) PathLe := by
  constructor
  intro p q r hpq hqr
  unfold PathLe pathLeB at *
  simp only [Bool.not_eq_true', Bool.not_eq_true] at *
  by_cases hrp : pathLtB r p = true
  · by_cases hqr' : pathLtB q r = true
    · have := pathLt_trans q r p hqr' hrp
      rw [this] at hpq
      exact absurd hpq (by simp)
    · have : r = q := pathLt_conn r q hqr (by simpa using hqr')
      subst this
      rw [hrp] at hpq
      exact absurd hpq (by simp)
  · simpa using hrp

instance : IsAntisymm (List String) PathLe := by
  constructor
  intro p q hpq hqp
  unfold PathLe pathLeB at *
  simp only [Bool.not_eq_true'] at *
  exact (pathLt_conn q p hpq hqp).symm

/-- A non-strictly smaller, distinct path is strictly smaller. -/
theorem pathLt_of_le_of_ne {p q : List String} (h : PathLe p q) (hne : p ≠ q) :
    PathLt p q := by
  unfold PathLe pathLeB at h
  unfold PathLt
  simp only [Bool.not_eq_true'] at h
  by_cases h2 : pathLtB p q = true
  · exact h2
  · exact absurd (pathLt_conn p q (by simpa using h2) h) hne

/-! ### C6 — sortedness and determinism of `collect_files` -/

/-- Membership is invariant under the final sort. -/
theorem mem_sortPaths {p : List String} {l : List (List String)} :
    p ∈ sortPaths l ↔ p ∈ l :=
  (List.perm_insertionSort PathLe l).mem_iff

/-- Every path produced under `dirPath` extends `dirPath` by the name of the
entry that produced it: the shape fact behind disjointness of sibling
contributions. -/
theorem getAllFiles_shape :
    (∀ e, ∀ dirPath exts ign p, p ∈ getAllFilesEntry dirPath exts ign e →
        ∃ t, p = dirPath ++ entryName e :: t) ∧
    (∀ es, ∀ dirPath exts ign p, p ∈ getAllFilesList dirPath exts ign es →
        ∃ e, e ∈ es ∧ ∃ t, p = dirPath ++ entryName e :: t) := by
  refine ⟨fileCount.induct _ _ ?h1 ?h2 ?h3 ?h4, fileCountForest.induct _ _ ?h1 ?h2 ?h3 ?h4⟩
  case h1 =>
    intro nm mt ct dirPath exts ign p hp
    simp only [getAllFilesEntry] at hp
    split at hp
    · simp only [List.mem_singleton] at hp
      exact ⟨[], by simpa [entryName] using hp⟩
    · simp at hp
  case h2 =>
    intro nm es ih dirPath exts ign p hp
    simp only [getAllFilesEntry] at hp
    split at hp
    · simp at hp
    · rcases ih (dirPath ++ [nm]) exts ign p (mem_sortPaths.mp hp) with ⟨e', -, t, ht⟩
      exact ⟨entryName e' :: t, by simpa [entryName, List.append_assoc] using ht⟩
  case h3 =>
    intro dirPath exts ign p hp
    simp [getAllFilesList] at hp
  case h4 =>
    intro e rest ihE ihL dirPath exts ign p hp
    simp only [getAllFilesList, List.mem_append] at hp
    rcases hp with hp | hp
    · rcases ihE dirPath exts ign p hp with ⟨t, ht⟩
      exact ⟨e, List.mem_cons_self e rest, t, ht⟩
    · rcases ihL dirPath exts ign p hp with ⟨e', he', t, ht⟩
      exact ⟨e', List.mem_cons_of_mem e he', t, ht⟩

/-- On a well-formed forest the collected (unsorted) path list has no
duplicates: distinct siblings contribute disjoint path families. -/
theorem getAllFiles_nodup :
    (∀ e, ∀ dirPath exts ign, wfEntry e = true →
        (getAllFilesEntry dirPath exts ign e).Nodup) ∧
    (∀ es, ∀ dirPath exts ign, wfForest es = true →
        (getAllFilesList dirPath exts ign es).Nodup) := by
  refine ⟨fileCount.induct _ _ ?h1 ?h2 ?h3 ?h4, fileCountForest.induct _ _ ?h1 ?h2 ?h3 ?h4⟩
  case h1 =>
    intro nm mt ct dirPath exts ign _
    simp only [getAllFilesEntry]
    split <;> simp
  case h2 =>
    intro nm es ih dirPath exts ign hwf
    simp only [getAllFilesEntry]
    split
    · simp
    · exact (List.perm_insertionSort PathLe _).symm.nodup
        (ih (dirPath ++ [nm]) exts ign (by simpa [wfEntry] using hwf))
  case h3 =>
    intro dirPath exts ign _
    simp [getAllFilesList]
  case h4 =>
    intro e rest ihE ihL dirPath exts ign hwf
    simp only [wfForest, Bool.and_eq_true, Bool.not_eq_true'] at hwf
    obtain ⟨⟨hwfE, hname⟩, hwfL⟩ := hwf
    simp only [getAllFilesList]
    rw [List.nodup_append]
    refine ⟨ihE dirPath exts ign hwfE, ihL dirPath exts ign hwfL, ?_⟩
    intro p hpE hpL
    rcases getAllFiles_shape.1 e dirPath exts ign p hpE with ⟨t, ht⟩
    rcases getAllFiles_shape.2 rest dirPath exts ign p hpL with ⟨e', he', t', ht'⟩
    have hheads : entryName e :: t = entryName e' :: t' := by
      have := ht.symm.trans ht'
      exact List.append_cancel_left this
    have : entryName e = entryName e' := (List.cons_eq_cons.mp hheads).1
    have hmem : entryName e ∈ rest.map entryName := this ▸ List.mem_map_of_mem entryName he'
    have : (rest.map entryName).contains (entryName e) = true :=
      List.elem_eq_true_of_mem hmem
    rw [this] at hname
    exact Bool.noConfusion hname

/-- C6: on every (well-formed) directory tree, for every extension filter
and ignore set, `get_all_files` returns a strictly ascending list of paths
(the final `sort` at mod.rs:295 plus the absence of duplicates), and its
result is fully determined by the multiset of discovered files — any
filesystem enumeration producing a permutation of the same unsorted
collection yields the identical sorted output. -/
theorem claim6_collect_sorted_deterministic (dirPath : List String)
    (exts : Option (List String)) (ign : List String) (es : List FSEntry)
    (hwf : wfForest es = true) :
    List.Sorted PathLt (getAllFiles dirPath exts ign es) ∧
    (∀ es₂, (getAllFilesList dirPath exts ign es₂).Perm (getAllFilesList dirPath exts ign es) →
      getAllFiles dirPath exts ign es₂ = getAllFiles dirPath exts ign es) := by
  constructor
  · have hsorted : List.Sorted PathLe (getAllFiles dirPath exts ign es) :=
      List.sorted_insertionSort PathLe _
    have hnodup : (getAllFiles dirPath exts ign es).Nodup :=
      (List.perm_insertionSort PathLe _).symm.nodup
        (getAllFiles_nodup.2 es dirPath exts ign hwf)
    exact (hsorted.and hnodup).imp fun h => pathLt_of_le_of_ne h.1 h.2
  · intro es₂ hperm
    apply List.eq_of_perm_of_sorted (r := PathLe)
    · exact ((List.perm_insertionSort PathLe _).trans hperm).trans
        (List.perm_insertionSort PathLe _).symm
    · exact List.sorted_insertionSort PathLe _
    · exact List.sorted_insertionSort PathLe _

/-- C6, witness: the sortedness theorem applied to a concrete well-formed
tree. -/
theorem claim6_witness :
    wfForest threeFilesBadB = true ∧
    List.Sorted PathLt (getAllFiles [] none [] threeFilesBadB) :=
  ⟨by decide, (claim6_collect_sorted_deterministic [] none [] threeFilesBadB (by decide)).1⟩

/-! ### C3 (amended) — what the ignore set applies to in `get_all_files` -/

/-- C3, amended: at every directory level of the collect traversal, a
*directory* entry whose name matches an ignore token is skipped together
with its entire subtree; *file* entries are never checked against the ignore
set — a file is processed exactly as it would be with an empty ignore set,
so a file whose own name is in the ignore set can still appear in the
returned list (see the counterexample). -/
theorem claim3_amended (dirPath : List String) (exts : Option (List String))
    (ign : List String) (nm : String) (es rest : List FSEntry)
    (h : ign.contains nm = true) :
    getAllFilesList dirPath exts ign (.dir nm es :: rest) =
      getAllFilesList dirPath exts ign rest ∧
    (∀ mt ct, getAllFilesEntry dirPath exts ign (.file nm mt ct) =
      getAllFilesEntry dirPath exts [] (.file nm mt ct)) := by
  constructor
  · have hm : nm ∈ ign := List.mem_of_elem_eq_true h
    simp [getAllFilesList, getAllFilesEntry, hm]
  · intro mt ct
    simp [getAllFilesEntry]

/-- C3, witness: with `secret` ignored, an ignored directory contributes
nothing while an equally named file is handled as if nothing were ignored. -/
theorem claim3_witness :
    (["secret"] : List String).contains "secret" = true ∧
    getAllFilesList [] none ["secret"]
        (.dir "secret" [.file "inner.txt" none none] :: [.file "a.txt" none none]) =
      getAllFilesList [] none ["secret"] [.file "a.txt" none none] ∧
    getAllFilesEntry [] none ["secret"] (.file "secret" none none) =
      getAllFilesEntry [] none [] (.file "secret" none none) :=
  ⟨by decide,
   (claim3_amended [] none ["secret"] "secret" [.file "inner.txt" none none]
      [.file "a.txt" none none] (by decide)).1,
   (claim3_amended [] none ["secret"] "secret" [] [] (by decide)).2 none none⟩

/-! ### C2 (amended) — dot-stripped equivalence holds for `collect_files` -/

/-- The traversal `get_all_files` depends on the extension filter only through the
predicate `fileMatchesExtFilter`. -/
theorem getAllFiles_filter_congr :
    (∀ e, ∀ dirPath (e1 e2 : Option (List String)) ign,
        (∀ nm, fileMatchesExtFilter e1 nm = fileMatchesExtFilter e2 nm) →
        getAllFilesEntry dirPath e1 ign e = getAllFilesEntry dirPath e2 ign e) ∧
    (∀ es, ∀ dirPath (e1 e2 : Option (List String)) ign,
        (∀ nm, fileMatchesExtFilter e1 nm = fileMatchesExtFilter e2 nm) →
        getAllFilesList dirPath e1 ign es = getAllFilesList dirPath e2 ign es) := by
  refine ⟨fileCount.induct _ _ ?h1 ?h2 ?h3 ?h4, fileCountForest.induct _ _ ?h1 ?h2 ?h3 ?h4⟩
  case h1 =>
    intro nm mt ct dirPath e1 e2 ign h
    simp [getAllFilesEntry, h nm]
  case h2 =>
    intro nm es ih dirPath e1 e2 ign h
    simp only [getAllFilesEntry]
    rw [ih (dirPath ++ [nm]) e1 e2 ign h]
  case h3 =>
    intro dirPath e1 e2 ign _
    rfl
  case h4 =>
    intro e rest ihE ihL dirPath e1 e2 ign h
    simp only [getAllFilesList]
    rw [ihE dirPath e1 e2 ign h, ihL dirPath e1 e2 ign h]

/-- Two filters with the same dot-stripped strings accept the same files. -/
theorem fileMatchesExtFilter_of_strip_eq {exts exts' : List String}
    (h : exts.map stripLeadingDots = exts'.map stripLeadingDots) (nm : String) :
    fileMatchesExtFilter (some exts) nm = fileMatchesExtFilter (some exts') nm := by
  simp only [fileMatchesExtFilter]
  cases hfe : fileExtension nm with
  | none =>
      simp only [hfe]
      rw [show (exts.any fun _ => false) = false by simp,
        show (exts'.any fun _ => false) = false by simp]
  | some e =>
      simp only [hfe]
      have h1 : ∀ l : List String, (l.any fun ext => e == stripLeadingDots ext) =
          (l.map stripLeadingDots).any fun d => e == d := by
        intro l
        rw [List.any_map]
        rfl
      rw [h1, h1, h]

/-- C2, amended: in `collect_files` the extension strings are compared after
stripping leading dots, so any two filters with the same stripped strings —
in particular `["rs"]` and `[".rs"]` — select exactly the same files.  (The
tree renderer instead tests `ends_with` on the raw string, so the claimed
tree/list agreement and the tree-side `"rs"`/`".rs"` equivalence fail, see
the counterexample.) -/
theorem claim2_amended (dirPath : List String) (ign : List String) (es : List FSEntry)
    (exts exts' : List String)
    (h : exts.map stripLeadingDots = exts'.map stripLeadingDots) :
    getAllFiles dirPath (some exts) ign es = getAllFiles dirPath (some exts') ign es := by
  unfold getAllFiles
  rw [getAllFiles_filter_congr.2 es dirPath (some exts) (some exts') ign
    (fileMatchesExtFilter_of_strip_eq h)]

/-- C2, witness: `["rs"]` and `[".rs"]` produce identical `collect_files`
results on a concrete tree. -/
theorem claim2_witness :
    (["rs"] : List String).map stripLeadingDots = [".rs"].map stripLeadingDots ∧
    getAllFiles [] (some ["rs"]) [] threeFilesBadB =
      getAllFiles [] (some [".rs"]) [] threeFilesBadB :=
  ⟨by decide, claim2_amended [] [] threeFilesBadB ["rs"] [".rs"] (by decide)⟩

/-! ### C8 — which per-file failures the combine loop tolerates -/

/-- Whether the combine loop can retrieve metadata for the discovered path
`p`: it still resolves to a file whose `fs::metadata` succeeds. -/
def statOk (root : List String) (es : List FSEntry) (p : List String) : Bool :=
  match resolvePath (p.drop root.length) es with
  | some (.file _ (some _) _) => true
  | _ => false

/-- Whether the combine loop can additionally read the file at `p`. -/
def readOk (root : List String) (es : List FSEntry) (p : List String) : Bool :=
  match resolvePath (p.drop root.length) es with
  | some (.file _ (some _) (some _)) => true
  | _ => false

/-- C8, counterexample.  The claim says a file *removed* between discovery
and read is handled by a non-fatal warning; but the loop first calls
`fs::metadata(file_path).unwrap()` (mod.rs:130), which panics when the file
is gone — before `read_to_string` and its tolerated error branch are ever
reached.  Concretely, a discovered path that no longer resolves aborts the
whole loop instead of warning. -/
theorem claim8_counterexample :
    ∃ msg, combineLoop XML_FILE_TEMPLATE false [] [] [["gone.txt"]] = .error msg :=
  ⟨_, rfl⟩

/-- C8, amended: when every discovered file still has retrievable metadata,
the loop always completes (`Except.ok`), the warned paths are exactly the
files whose content read fails — each such file is excluded from the output —
and the remaining files each contribute exactly one block; but a file whose
metadata cannot be retrieved (e.g. removed between discovery and read) makes
the loop panic, so the read step is the only tolerated partial failure. -/
theorem claim8_amended (ft : String) (addLN : Bool) (root : List String)
    (es : List FSEntry) :
    ∀ paths : List (List String), (∀ p ∈ paths, statOk root es p = true) →
    ∃ warnings blocks,
      combineLoop ft addLN root es paths = .ok (warnings, blocks) ∧
      warnings = paths.filter (fun p => !(readOk root es p)) ∧
      blocks.length = (paths.filter fun p => readOk root es p).length := by
  intro paths
  induction paths with
  | nil =>
      intro _
      exact ⟨[], [], rfl, by simp, by simp⟩
  | cons p rest ih =>
      intro h
      have hp := h p (List.mem_cons_self p rest)
      have hrest := ih fun q hq => h q (List.mem_cons_of_mem p hq)
      obtain ⟨w, b, heq, hw, hb⟩ := hrest
      unfold statOk at hp
      cases hr : resolvePath (p.drop root.length) es with
      | none => rw [hr] at hp; exact absurd hp (by simp)
      | some e =>
          rw [hr] at hp
          cases e with
          | dir nm es' => exact absurd hp (by simp)
          | file nm mt ct =>
              cases mt with
              | none => exact absurd hp (by simp)
              | some t =>
                  cases ct with
                  | none =>
                      have hread : readOk root es p = false := by
                        unfold readOk
                        rw [hr]
                      refine ⟨p :: w, b, ?_, ?_, ?_⟩
                      · simp only [combineLoop, hr]
                        rw [heq]
                      · simp [List.filter_cons, hread, hw]
                      · simp only [List.filter_cons, hread]
                        simpa using hb
                  | some content =>
                      have hread : readOk root es p = true := by
                        unfold readOk
                        rw [hr]
                      refine ⟨w, (generateOutputFileContent ft
                          [("FILE_PATH", joinPath (p.drop root.length)), ("FILE_NAME", nm),
                           ("LINES_COUNT", toString (rustLines content).length),
                           ("MODIFIED_TIME", formatChrono MODIFIED_TIME_FORMAT t),
                           ("FILE_CONTENT",
                             rustTrim (if addLN then numberLines content else content))]) :: b,
                        ?_, ?_, ?_⟩
                      · simp only [combineLoop, hr]
                        rw [heq]
                      · simp [List.filter_cons, hread, hw]
                      · simp only [List.filter_cons, hread, if_true, List.length_cons]
                        simpa using hb

/-- C8, witness: on the run with three statable files of which `b.txt` is
unreadable, the loop completes, warns exactly on `b.txt`, and produces two
blocks. -/
theorem claim8_witness :
    (∀ p ∈ [["a.txt"], ["b.txt"], ["c.txt"]], statOk [] threeFilesBadB p = true) ∧
    ∃ warnings blocks,
      combineLoop XML_FILE_TEMPLATE false [] threeFilesBadB
          [["a.txt"], ["b.txt"], ["c.txt"]] = .ok (warnings, blocks) ∧
      warnings = [["a.txt"], ["b.txt"], ["c.txt"]].filter
        (fun p => !(readOk [] threeFilesBadB p)) ∧
      blocks.length = ([["a.txt"], ["b.txt"], ["c.txt"]].filter
        fun p => readOk [] threeFilesBadB p).length :=
  ⟨by decide, claim8_amended XML_FILE_TEMPLATE false [] threeFilesBadB
    [["a.txt"], ["b.txt"], ["c.txt"]] (by decide)⟩

/-! ### C7 — subtree-wide pruning of ignored directories -/

/-- Pruning ignored subtrees does not change an entry's name. -/
theorem entryName_pruneEntry (ign : List String) (e : FSEntry) :
    entryName (pruneEntry ign e) = entryName e := by
  cases e <;> rfl

/-- Pruning ignored subtrees does not change the tree-sort key comparison. -/
theorem entryKeyLt_pruneEntry (ign : List String) (a b : FSEntry) :
    entryKeyLt (pruneEntry ign a) (pruneEntry ign b) = entryKeyLt a b := by
  cases a <;> cases b <;> rfl

theorem entryKeyLe_pruneEntry (ign : List String) (a b : FSEntry) :
    EntryKeyLe (pruneEntry ign a) (pruneEntry ign b) ↔ EntryKeyLe a b := by
  unfold EntryKeyLe
  rw [entryKeyLt_pruneEntry]

theorem orderedInsert_map_pruneEntry (ign : List String) (a : FSEntry) :
    ∀ l, List.orderedInsert EntryKeyLe (pruneEntry ign a) (l.map (pruneEntry ign)) =
      (List.orderedInsert EntryKeyLe a l).map (pruneEntry ign) := by
  intro l
  induction l with
  | nil => rfl
  | cons b l ih =>
      simp only [List.map_cons, List.orderedInsert]
      by_cases h : EntryKeyLe a b
      · rw [if_pos h, if_pos ((entryKeyLe_pruneEntry ign a b).mpr h)]
        simp
      · rw [if_neg h, if_neg (fun hc => h ((entryKeyLe_pruneEntry ign a b).mp hc))]
        simp only [List.map_cons]
        rw [ih]

theorem insertionSort_map_pruneEntry (ign : List String) :
    ∀ l, List.insertionSort EntryKeyLe (l.map (pruneEntry ign)) =
      (List.insertionSort EntryKeyLe l).map (pruneEntry ign) := by
  intro l
  induction l with
  | nil => rfl
  | cons a l ih =>
      simp only [List.map_cons, List.insertionSort]
      rw [ih, orderedInsert_map_pruneEntry]

/-- Filtering the ignored names commutes with pruning: the pruned forest's
kept entries are exactly the kept entries with their own subtrees pruned. -/
theorem filter_pruneForest (ign : List String) :
    ∀ es, (pruneForest ign es).filter (fun e => !(ign.contains (entryName e))) =
      (es.filter fun e => !(ign.contains (entryName e))).map (pruneEntry ign) := by
  intro es
  induction es with
  | nil => rfl
  | cons e rest ih =>
      simp only [pruneForest]
      split
      · next hcond =>
          have h2 : ign.contains (entryName e) = true := Bool.and_elim_right hcond
          rw [List.filter_cons, h2]
          simp only [Bool.not_true]
          rw [if_neg (by simp)]
          exact ih
      · next hcond =>
          rw [List.filter_cons, List.filter_cons, entryName_pruneEntry]
          by_cases hc : ign.contains (entryName e) = true
          · rw [hc]
            simp only [Bool.not_true]
            rw [if_neg (by simp), if_neg (by simp)]
            exact ih
          · have hc' : ign.contains (entryName e) = false := by
              simpa using hc
            rw [hc']
            simp only [Bool.not_false]
            simp only [if_true]
            simp only [List.map_cons]
            exact congrArg₂ List.cons rfl ih

/-- The `contents` list of the tree renderer commutes with pruning. -/
theorem sortedContents_pruneForest (ign : List String) (es : List FSEntry) :
    sortedContents ign (pruneForest ign es) =
      (sortedContents ign es).map (pruneEntry ign) := by
  unfold sortedContents
  rw [filter_pruneForest, insertionSort_map_pruneEntry]

/-- An ignored entry at the head contributes nothing to `contents`. -/
theorem sortedContents_cons_ignored {ign : List String} {e : FSEntry}
    (h : ign.contains (entryName e) = true) (rest : List FSEntry) :
    sortedContents ign (e :: rest) = sortedContents ign rest := by
  have hm : entryName e ∈ ign := List.mem_of_elem_eq_true h
  unfold sortedContents
  rw [List.filter_cons]
  simp [hm]

/-- The traversal `get_all_files` is unchanged when every ignored-named directory is
deleted from the tree: the traversal never looks inside them. -/
theorem getAllFiles_pruneForest :
    (∀ e, ∀ dirPath exts ign,
        getAllFilesEntry dirPath exts ign (pruneEntry ign e) =
          getAllFilesEntry dirPath exts ign e) ∧
    (∀ es, ∀ dirPath exts ign,
        getAllFilesList dirPath exts ign (pruneForest ign es) =
          getAllFilesList dirPath exts ign es) := by
  refine ⟨fileCount.induct _ _ ?h1 ?h2 ?h3 ?h4, fileCountForest.induct _ _ ?h1 ?h2 ?h3 ?h4⟩
  case h1 =>
    intro nm mt ct dirPath exts ign
    rfl
  case h2 =>
    intro nm es ih dirPath exts ign
    simp only [pruneEntry, getAllFilesEntry]
    split
    · rfl
    · rw [ih (dirPath ++ [nm]) exts ign]
  case h3 =>
    intro dirPath exts ign
    rfl
  case h4 =>
    intro e rest ihE ihL dirPath exts ign
    simp only [pruneForest]
    split
    · next hcond =>
        have hdir : entryIsDir e = true := Bool.and_elim_left hcond
        have hig : ign.contains (entryName e) = true := Bool.and_elim_right hcond
        cases e with
        | file nm mt ct => simp [entryIsDir] at hdir
        | dir nm es' =>
            have hm : nm ∈ ign := List.mem_of_elem_eq_true hig
            simp [getAllFilesList, getAllFilesEntry, hm, ihL dirPath exts ign]
    · simp only [getAllFilesList]
      rw [ihE dirPath exts ign, ihL dirPath exts ign]

/-! Fuel arithmetic for the tree renderer -/

theorem one_le_forestSize (es : List FSEntry) : 1 ≤ forestSize es := by
  cases es with
  | nil => simp [forestSize]
  | cons a l =>
      simp only [forestSize]
      omega

theorem entrySize_lt_forestSize_of_mem {e : FSEntry} {es : List FSEntry} (h : e ∈ es) :
    entrySize e < forestSize es := by
  induction es with
  | nil => cases h
  | cons a rest ih =>
      rcases List.mem_cons.mp h with rfl | h'
      · simp [forestSize]
        omega
      · have := ih h'
        simp [forestSize]
        omega

theorem mem_of_mem_sortedContents {e : FSEntry} {ign : List String} {es : List FSEntry}
    (h : e ∈ sortedContents ign es) : e ∈ es := by
  have h1 := (List.perm_insertionSort EntryKeyLe _).mem_iff.mp h
  exact (List.mem_filter.mp h1).1

theorem pruneSize :
    (∀ e, ∀ ign, entrySize (pruneEntry ign e) ≤ entrySize e) ∧
    (∀ es, ∀ ign, forestSize (pruneForest ign es) ≤ forestSize es) := by
  refine ⟨fileCount.induct _ _ ?h1 ?h2 ?h3 ?h4, fileCountForest.induct _ _ ?h1 ?h2 ?h3 ?h4⟩
  case h1 =>
    intro nm mt ct ign
    simp [pruneEntry]
  case h2 =>
    intro nm es ih ign
    simp only [pruneEntry, entrySize]
    have := ih ign
    omega
  case h3 =>
    intro ign
    simp [pruneForest]
  case h4 =>
    intro e rest ihE ihL ign
    simp only [pruneForest]
    split
    · have h1 := ihL ign
      simp only [forestSize]
      omega
    · have h1 := ihE ign
      have h2 := ihL ign
      simp only [forestSize]
      omega

/-- The tree renderer is extensionally independent of the fuel, once the
fuel bounds the forest size. -/
theorem createFolderTreeFuel_congr : ∀ f g es, forestSize es ≤ f → forestSize es ≤ g →
    ∀ exts ign pfx, createFolderTreeFuel f exts ign pfx es =
      createFolderTreeFuel g exts ign pfx es := by
  intro f
  induction f with
  | zero =>
      intro g es hf _ _ _ _
      have := one_le_forestSize es
      omega
  | succ f ihf =>
      intro g es hf hg exts ign pfx
      cases g with
      | zero =>
          have := one_le_forestSize es
          omega
      | succ g' =>
          simp only [createFolderTreeFuel]
          congr 1
          apply List.map_congr_left
          intro ie hie
          obtain ⟨i, e⟩ := ie
          obtain ⟨hlt, hget⟩ := List.mem_enum hie
          have he : e ∈ sortedContents ign es := hget ▸ List.getElem_mem hlt
          have he' : e ∈ es := mem_of_mem_sortedContents he
          have h1 : entrySize e < forestSize es := entrySize_lt_forestSize_of_mem he'
          cases e with
          | file nm mt ct => rfl
          | dir nm es' =>
              have h2 : forestSize es' < entrySize (FSEntry.dir nm es') := by
                simp [entrySize]
              show _ ++ createFolderTreeFuel f exts ign _ es' =
                _ ++ createFolderTreeFuel g' exts ign _ es'
              congr 1
              exact ihf g' es' (by omega) (by omega) exts ign _

/-- At every fixed fuel the tree renderer is unchanged by deleting the
ignored-named directories: it never descends into them. -/
theorem createFolderTreeFuel_pruneForest : ∀ f, ∀ exts ign pfx es,
    createFolderTreeFuel f exts ign pfx (pruneForest ign es) =
      createFolderTreeFuel f exts ign pfx es := by
  intro f
  induction f with
  | zero =>
      intro exts ign pfx es
      rfl
  | succ f ihf =>
      intro exts ign pfx es
      simp only [createFolderTreeFuel]
      rw [sortedContents_pruneForest]
      simp only [List.length_map]
      rw [List.enum_map, List.map_map]
      congr 1
      apply List.map_congr_left
      intro ie hie
      obtain ⟨i, e⟩ := ie
      cases e with
      | file nm mt ct => rfl
      | dir nm es' =>
          show _ ++ createFolderTreeFuel f exts ign _ (pruneForest ign es') =
            _ ++ createFolderTreeFuel f exts ign _ es'
          congr 1
          exact ihf exts ign _ es'

/-- C7: pruning is subtree-wide in both walker operations.  Deleting every
directory whose name matches an ignore token — wholesale, with everything
beneath it — changes neither the `collect_files` result nor the rendered
tree diagram: nothing under an ignored directory ever appears in, or even
influences, either output.  In particular (third conjunct) an ignored
directory at the top level contributes nothing at all, whatever its
contents, even contents that would match the extension filter. -/
theorem claim7_pruning_subtree_wide (dirPath : List String)
    (exts : Option (List String)) (ign : List String) (es : List FSEntry) :
    getAllFiles dirPath exts ign (pruneForest ign es) = getAllFiles dirPath exts ign es ∧
    createFolderTree exts ign (pruneForest ign es) = createFolderTree exts ign es ∧
    (∀ nm sub rest, ign.contains nm = true →
      getAllFiles dirPath exts ign (.dir nm sub :: rest) =
        getAllFiles dirPath exts ign rest ∧
      createFolderTree exts ign (.dir nm sub :: rest) =
        createFolderTree exts ign rest) := by
  refine ⟨?_, ?_, ?_⟩
  · unfold getAllFiles
    rw [getAllFiles_pruneForest.2 es dirPath exts ign]
  · unfold createFolderTree
    rw [createFolderTreeFuel_congr (forestSize (pruneForest ign es)) (forestSize es)
      (pruneForest ign es) (le_refl _) (pruneSize.2 es ign) exts ign ""]
    exact createFolderTreeFuel_pruneForest (forestSize es) exts ign "" es
  · intro nm sub rest h
    have hm : nm ∈ ign := List.mem_of_elem_eq_true h
    constructor
    · unfold getAllFiles
      simp [getAllFilesList, getAllFilesEntry, hm]
    · unfold createFolderTree
      have hstep : createFolderTreeFuel (forestSize (FSEntry.dir nm sub :: rest))
          exts ign "" (FSEntry.dir nm sub :: rest) =
          createFolderTreeFuel (forestSize (FSEntry.dir nm sub :: rest)) exts ign "" rest := by
        obtain ⟨k, hk⟩ : ∃ k, forestSize (FSEntry.dir nm sub :: rest) = k + 1 :=
          ⟨forestSize (FSEntry.dir nm sub :: rest) - 1, by
            have := one_le_forestSize (FSEntry.dir nm sub :: rest)
            omega⟩
        rw [hk]
        simp only [createFolderTreeFuel]
        rw [sortedContents_cons_ignored (by simpa [entryName] using h) rest]
      rw [hstep]
      apply createFolderTreeFuel_congr
      · simp only [forestSize]
        omega
      · exact le_refl _

/-- C7, witness: an ignored directory full of filter-matching files
contributes nothing to either output. -/
theorem claim7_witness :
    (["skip"] : List String).contains "skip" = true ∧
    getAllFiles [] (some ["rs"]) ["skip"]
        (.dir "skip" [.file "x.rs" none none] :: [.file "a.rs" none none]) =
      getAllFiles [] (some ["rs"]) ["skip"] [.file "a.rs" none none] ∧
    createFolderTree (some ["rs"]) ["skip"]
        (.dir "skip" [.file "x.rs" none none] :: [.file "a.rs" none none]) =
      createFolderTree (some ["rs"]) ["skip"] [.file "a.rs" none none] :=
  ⟨by decide,
   ((claim7_pruning_subtree_wide [] (some ["rs"]) ["skip"] []).2.2 "skip"
      [.file "x.rs" none none] [.file "a.rs" none none] (by decide)).1,
   ((claim7_pruning_subtree_wide [] (some ["rs"]) ["skip"] []).2.2 "skip"
      [.file "x.rs" none none] [.file "a.rs" none none] (by decide)).2⟩

end Fcom
